import Mathlib

set_option maxRecDepth 4000

/-!
Verification of the backup orchestration pipeline in `src/auto_backup.py`
(class `BackupSystem`).  Pure data and control flow of the Python source are
shallowly embedded as Lean definitions; external effects (the `gh` CLI, the
filesystem, `git`) are modelled as explicit outcome parameters, so that each
method of the source becomes a total function of its inputs and of the
outcomes of the external calls it makes.
-/

/-! ## SHA-256 (embedding of `hashlib.sha256`)

`calculate_checksum` feeds file bytes into `hashlib.sha256` and returns the
lowercase hex digest.  The hash itself is embedded as an executable SHA-256
over byte lists (`Nat` values; 32-bit words are kept reduced `% 2^32`).
-/

def w32 (n : Nat) : Nat := n % 4294967296

def rotr32 (x n : Nat) : Nat := w32 ((x >>> n) ||| (x <<< (32 - n)))

def shaK : List Nat :=
  [1116352408, 1899447441, 3049323471, 3921009573, 961987163,
   1508970993, 2453635748, 2870763221, 3624381080, 310598401,
   607225278, 1426881987, 1925078388, 2162078206, 2614888103,
   3248222580, 3835390401, 4022224774, 264347078, 604807628,
   770255983, 1249150122, 1555081692, 1996064986, 2554220882,
   2821834349, 2952996808, 3210313671, 3336571891, 3584528711,
   113926993, 338241895, 666307205, 773529912, 1294757372,
   1396182291, 1695183700, 1986661051, 2177026350, 2456956037,
   2730485921, 2820302411, 3259730800, 3345764771, 3516065817,
   3600352804, 4094571909, 275423344, 430227734, 506948616,
   659060556, 883997877, 958139571, 1322822218, 1537002063,
   1747873779, 1955562222, 2024104815, 2227730452, 2361852424,
   2428436474, 2756734187, 3204031479, 3329325298]

def shaH0 : List Nat :=
  [1779033703, 3144134277, 1013904242, 2773480762,
   1359893119, 2600822924, 528734635, 1541459225]

def bigSigma0 (x : Nat) : Nat := rotr32 x 2 ^^^ rotr32 x 13 ^^^ rotr32 x 22

def bigSigma1 (x : Nat) : Nat := rotr32 x 6 ^^^ rotr32 x 11 ^^^ rotr32 x 25

def smallSigma0 (x : Nat) : Nat := rotr32 x 7 ^^^ rotr32 x 18 ^^^ (x >>> 3)

def smallSigma1 (x : Nat) : Nat := rotr32 x 17 ^^^ rotr32 x 19 ^^^ (x >>> 10)

structure Sha256State where
  a : Nat
  b : Nat
  c : Nat
  d : Nat
  e : Nat
  f : Nat
  g : Nat
  h : Nat

def shaRound (s : Sha256State) (k w : Nat) : Sha256State :=
  let s1 := bigSigma1 s.e
  let ch := (s.e &&& s.f) ^^^ ((4294967295 ^^^ s.e) &&& s.g)
  let t1 := w32 (s.h + s1 + ch + k + w)
  let s0 := bigSigma0 s.a
  let mj := (s.a &&& s.b) ^^^ (s.a &&& s.c) ^^^ (s.b &&& s.c)
  let t2 := w32 (s0 + mj)
  { a := w32 (t1 + t2), b := s.a, c := s.b, d := s.c,
    e := w32 (s.d + t1), f := s.e, g := s.f, h := s.g }

/-- Extend a 16-word block to the 64-word message schedule (48 steps). -/
def extendW : Nat → List Nat → List Nat
  | 0, ws => ws
  | fuel + 1, ws =>
    let i := ws.length
    let w := w32 (smallSigma1 (ws.getD (i - 2) 0) + ws.getD (i - 7) 0 +
                  smallSigma0 (ws.getD (i - 15) 0) + ws.getD (i - 16) 0)
    extendW fuel (ws ++ [w])

def shaCompress (hs : List Nat) (block : List Nat) : List Nat :=
  let ws := extendW 48 block
  let init : Sha256State :=
    { a := hs.getD 0 0, b := hs.getD 1 0, c := hs.getD 2 0, d := hs.getD 3 0,
      e := hs.getD 4 0, f := hs.getD 5 0, g := hs.getD 6 0, h := hs.getD 7 0 }
  let fin := (List.zip shaK ws).foldl (fun s kw => shaRound s kw.1 kw.2) init
  [w32 (hs.getD 0 0 + fin.a), w32 (hs.getD 1 0 + fin.b),
   w32 (hs.getD 2 0 + fin.c), w32 (hs.getD 3 0 + fin.d),
   w32 (hs.getD 4 0 + fin.e), w32 (hs.getD 5 0 + fin.f),
   w32 (hs.getD 6 0 + fin.g), w32 (hs.getD 7 0 + fin.h)]

/-- `n` bytes of `v`, big-endian. -/
def bytesBE (n v : Nat) : List Nat :=
  (List.range n).map (fun i => (v >>> (8 * (n - 1 - i))) % 256)

/-- SHA-256 padding: `0x80`, zeros to 56 mod 64, then the 64-bit bit length. -/
def sha256pad (msg : List Nat) : List Nat :=
  let L := msg.length
  let k := (119 - (L % 64)) % 64
  msg ++ (128 :: List.replicate k 0) ++ bytesBE 8 (8 * L)

def bytesToWords : List Nat → List Nat
  | b0 :: b1 :: b2 :: b3 :: rest =>
    (((b0 * 256 + b1) * 256 + b2) * 256 + b3) :: bytesToWords rest
  | _ => []

def chunk16 : Nat → List Nat → List (List Nat)
  | 0, _ => []
  | _, [] => []
  | fuel + 1, ws => ws.take 16 :: chunk16 fuel (ws.drop 16)

def sha256 (msg : List Nat) : List Nat :=
  let ws := bytesToWords (sha256pad msg)
  (chunk16 ws.length ws).foldl shaCompress shaH0

def hexChar (n : Nat) : Char :=
  if n < 10 then Char.ofNat (48 + n) else Char.ofNat (87 + n)

def wordHex (w : Nat) : List Char :=
  (List.range 8).map (fun i => hexChar ((w >>> (4 * (7 - i))) % 16))

/-- Lowercase hex digest of the SHA-256 of a byte list
(`hashlib.sha256(...).hexdigest()`). -/
def sha256hex (msg : List Nat) : String :=
  String.mk ((sha256 msg).map wordHex).flatten

/-! ## Directory trees and `calculate_checksum`

A cloned working copy is a finite directory tree.  A file's content is
`some bytes` when readable and `none` when opening it raises (the source
skips such files with a bare `except: pass`).  The list of children of a
directory is kept in the filesystem's native iteration order, which is
exactly what `os.walk` hands to the loop before `dirs.sort()` /
`files.sort()` reorder it. -/

inductive FsEntry where
  | file (content : Option (List Nat))
  | dir (children : List (String × FsEntry))

/-- Comparison used by `dirs.sort()` and `files.sort()`: Python sorts the
name strings lexicographically. -/
def entryLe (p q : String × FsEntry) : Prop := p.1 ≤ q.1

instance : DecidableRel entryLe := fun p q =>
  inferInstanceAs (Decidable (p.1 ≤ q.1))

instance : IsTotal (String × FsEntry) entryLe := ⟨fun p q => le_total p.1 q.1⟩

instance : IsTrans (String × FsEntry) entryLe :=
  ⟨fun _ _ _ h₁ h₂ => le_trans h₁ h₂⟩

def FsEntry.isFile : FsEntry → Bool
  | .file _ => true
  | .dir _ => false

/-- Bytes contributed by one entry: the raw content of a readable regular
file (`open(filepath, 'rb').read()`); unreadable files are skipped. -/
def readBytes : FsEntry → List Nat
  | .file (some c) => c
  | .file none => []
  | .dir _ => []

/-- The `for filename in files: hasher.update(...)` loop over one directory
level: bytes of the regular files, in list order. -/
def filesBytes : List (String × FsEntry) → List Nat
  | [] => []
  | (_, e) :: rest => (if e.isFile then readBytes e else []) ++ filesBytes rest

mutual

/-- Embedding of the `os.walk` loop of `calculate_checksum`: at each
directory, sort the entries by name (`dirs.sort()` / `files.sort()`), feed
the bytes of this level's files to the hasher, then descend into the
subdirectories in sorted order.  `os.walk` on a non-directory yields
nothing. -/
def walkBytes : FsEntry → List Nat
  | .file _ => []
  | .dir cs =>
    let s := List.insertionSort entryLe cs
    filesBytes s ++ walkSubdirs s
termination_by e => sizeOf e
decreasing_by
  rename_i cs
  simp only [FsEntry.dir.sizeOf_spec]
  have hp := (List.perm_insertionSort entryLe cs).sizeOf_eq_sizeOf
  omega

def walkSubdirs : List (String × FsEntry) → List Nat
  | [] => []
  | (_, e) :: rest => (if e.isFile then [] else walkBytes e) ++ walkSubdirs rest
termination_by l => sizeOf l
decreasing_by
  · simp only [List.cons.sizeOf_spec, Prod.mk.sizeOf_spec]
    omega
  · simp only [List.cons.sizeOf_spec]
    omega

end

/-- `calculate_checksum`: SHA-256 over the file bytes met during the sorted
walk, as a lowercase hex digest. -/
def calculate_checksum (directory : FsEntry) : String :=
  sha256hex (walkBytes directory)

mutual

/-- Recursively sort every directory level by name: the canonical form a
tree is driven into by the sorted traversal. -/
def canon : FsEntry → FsEntry
  | .file c => .file c
  | .dir cs => .dir (List.insertionSort entryLe (canonList cs))

def canonList : List (String × FsEntry) → List (String × FsEntry)
  | [] => []
  | (n, e) :: rest => (n, canon e) :: canonList rest

end

mutual

/-- Rename every entry of a tree through `f`, leaving contents intact. -/
def renameTree (f : String → String) : FsEntry → FsEntry
  | .file c => .file c
  | .dir cs => .dir (renameList f cs)

def renameList (f : String → String) :
    List (String × FsEntry) → List (String × FsEntry)
  | [] => []
  | (n, e) :: rest => (f n, renameTree f e) :: renameList f rest

end

mutual

/-- `true` when the tree contains no readable regular file. -/
def noReadable : FsEntry → Bool
  | .file c => c.isNone
  | .dir cs => noReadableList cs

def noReadableList : List (String × FsEntry) → Bool
  | [] => true
  | (_, e) :: rest => noReadable e && noReadableList rest

end

/-- Well-formed directory tree: at every level the entry names are
pairwise distinct (true of any real directory listing). -/
inductive WF : FsEntry → Prop where
  | file (c : Option (List Nat)) : WF (.file c)
  | dir {cs : List (String × FsEntry)}
      (hnd : (cs.map Prod.fst).Nodup)
      (hall : ∀ p ∈ cs, WF p.2) : WF (.dir cs)

/-- One change of filesystem iteration order: swap two adjacent sibling
entries somewhere in a directory, or apply such a change inside one
subtree. -/
inductive Reorder : FsEntry → FsEntry → Prop where
  | swapTop (pre : List (String × FsEntry)) (p q : String × FsEntry)
      (post : List (String × FsEntry)) :
      Reorder (.dir (pre ++ p :: q :: post)) (.dir (pre ++ q :: p :: post))
  | congr (pre : List (String × FsEntry)) (n : String)
      (post : List (String × FsEntry)) {e e' : FsEntry} (h : Reorder e e') :
      Reorder (.dir (pre ++ (n, e) :: post)) (.dir (pre ++ (n, e') :: post))

/-- `t'` presents the same tree as `t` under some other filesystem
iteration order: finitely many sibling reorderings, at any depth. -/
def ReorderedFrom (t t' : FsEntry) : Prop := Relation.ReflTransGen Reorder t t'

/-! ## Records, the per-repository pipeline and the run

`backup_repository` is embedded as a total function of the repository name
and of the outcomes of the external operations it performs, in the order
the source performs them: the `gh repo clone` call (`clone_repository`
returns a `Bool` and appends its own diagnostic), the checksum computation,
`shutil.make_archive`, the `stat()` of the produced archive (its result
doubles as the `exists()` check of the verification step, the filesystem
being unchanged in between), and the final `shutil.rmtree`.  An `Except`
error models a raised exception, caught by the `try/except` of the source
and converted into the `"Backup failed for ..."` diagnostic. -/

deriving instance DecidableEq for Except

structure StepEnv where
  /-- Outcome of `gh repo clone` inside `clone_repository`. -/
  cloneRes : Except String Unit
  /-- Checksum value, or an unexpected fault while computing it. -/
  checksumRes : Except String String
  /-- Outcome of `shutil.make_archive`. -/
  makeRes : Except String Unit
  /-- Whether the produced archive exists on disk (`archive_path.exists()`;
  when `false`, the `stat()` on line 107 of the source raises). -/
  archiveExists : Bool
  /-- `archive_path.stat().st_size` when the archive exists. -/
  archiveSize : Nat
  /-- Outcome of `shutil.rmtree(temp_dir)`. -/
  rmtreeRes : Except String Unit
deriving DecidableEq, Repr

/-- The per-repository `backup_info` dictionary. -/
structure RepoRecord where
  name : String
  timestamp : String
  status : String
  checksum : Option String
  size_bytes : Nat
  archive_path : Option String
  /-- The `"error"` key, added only in the `except` branch. -/
  error : Option String
deriving DecidableEq, Repr

/-- What one call of `backup_repository` produces: the finalized record,
the diagnostics it appended to `backup_log["errors"]`, and whether the
per-repository temporary workspace was removed. -/
structure RepoResult where
  record : RepoRecord
  diags : List String
  tempRemoved : Bool
deriving DecidableEq, Repr

def initRecord (ts name : String) : RepoRecord :=
  { name := name, timestamp := ts, status := "failed", checksum := none,
    size_bytes := 0, archive_path := none, error := none }

/-- Deterministic archive location `{backup_dir}/{name}_{timestamp}.tar.gz`
produced by `create_archive`. -/
def archivePath (ts name : String) : String := name ++ "_" ++ ts ++ ".tar.gz"

/-- Embedding of `backup_repository`. -/
def backup_repository (ts : String) (env : StepEnv) (name : String) :
    RepoResult :=
  let info := initRecord ts name
  match env.cloneRes with
  | .error e =>
    { record := info,
      diags := ["Failed to clone " ++ name ++ ": " ++ e], tempRemoved := false }
  | .ok _ =>
    match env.checksumRes with
    | .error e =>
      { record := { info with error := some e },
        diags := ["Backup failed for " ++ name ++ ": " ++ e],
        tempRemoved := false }
    | .ok cs =>
      let info := { info with checksum := some cs }
      match env.makeRes with
      | .error e =>
        { record := { info with error := some e },
          diags := ["Backup failed for " ++ name ++ ": " ++ e],
          tempRemoved := false }
      | .ok _ =>
        let info := { info with archive_path := some (archivePath ts name) }
        if env.archiveExists = false then
          let e := "stat: " ++ archivePath ts name
          { record := { info with error := some e },
            diags := ["Backup failed for " ++ name ++ ": " ++ e],
            tempRemoved := false }
        else
          let info := { info with size_bytes := env.archiveSize }
          let info :=
            if env.archiveExists && decide (0 < env.archiveSize) then
              { info with status := "success" }
            else info
          match env.rmtreeRes with
          | .error e =>
            { record := { info with error := some e },
              diags := ["Backup failed for " ++ name ++ ": " ++ e],
              tempRemoved := false }
          | .ok _ => { record := info, diags := [], tempRemoved := true }

structure RunSummary where
  total : Nat
  success : Nat
  failed : Nat
deriving DecidableEq, Repr

/-- The `backup_log` dictionary at the end of `backup_all_repositories`. -/
structure BackupLog where
  repositories : List RepoRecord
  status : String
  errors : List String
  summary : RunSummary
deriving DecidableEq, Repr

/-- Embedding of `backup_all_repositories`: process the discovered
repositories in order, append each record and each diagnostic, then derive
the final status and the summary counts. -/
def backup_all_repositories (ts : String)
    (repos : List (String × StepEnv)) : BackupLog :=
  let results := repos.map (fun p => backup_repository ts p.2 p.1)
  let records := results.map (·.record)
  let successCount := records.countP (fun r => r.status == "success")
  { repositories := records,
    status := if successCount == repos.length then "completed" else "partial",
    errors := (results.map (·.diags)).flatten,
    summary := { total := repos.length, success := successCount,
                 failed := repos.length - successCount } }

/-- Embedding of `get_all_repositories`: ask the provider for up to 100
repositories of the organization, drop the backup sink's own name, and on
any failure append one diagnostic and return the empty list.  `provider`
maps the requested limit to the parsed listing result. -/
def get_all_repositories (provider : Nat → Except String (List String))
    (errors : List String) : List String × List String :=
  match provider 100 with
  | .ok repos => (repos.filter (fun n => n ≠ "backup"), errors)
  | .error e => ([], errors ++ ["Failed to list repositories: " ++ e])

/-- One artifact in the local backup store, as `cleanup_old_backups` sees
it: its name, whether it matches the `*.tar.gz` glob, its mtime (seconds),
and whether `unlink()` would succeed on it. -/
structure Artifact where
  name : String
  isTarGz : Bool
  mtime : Int
  unlinkOk : Bool
deriving DecidableEq, Repr

/-- The scan loop of `cleanup_old_backups` over the globbed store entries:
returns the deleted artifacts and the printed messages, in order. -/
def cleanupScan (cutoff : Int) : List Artifact →
    List Artifact × List String
  | [] => ([], [])
  | a :: rest =>
    let r := cleanupScan cutoff rest
    if a.isTarGz && decide (a.mtime < cutoff) then
      if a.unlinkOk then
        (a :: r.1, ("Removed old backup: " ++ a.name) :: r.2)
      else
        (r.1, ("Failed to remove " ++ a.name) :: r.2)
    else r

/-- Embedding of `cleanup_old_backups`: `now` is
`datetime.utcnow().timestamp()`. -/
def cleanup_old_backups (now : Int) (retention_days : Int)
    (store : List Artifact) : List Artifact × List String :=
  cleanupScan (now - retention_days * 86400) store

/-- Outcomes of the external operations of `upload_to_backup_repo`.  The
`mkdir` and the copy loop run before the `try:` block; `os.chdir` and the
three `git` commands run inside it. -/
structure PublishEnv where
  copyFault : Option String
  chdirFault : Option String
  addFault : Option String
  commitFault : Option String
  pushFault : Option String
deriving DecidableEq, Repr

/-- First fault among the operations inside the `try:` block of
`upload_to_backup_repo`, in execution order. -/
def gitFault (env : PublishEnv) : Option String :=
  env.chdirFault <|> env.addFault <|> env.commitFault <|> env.pushFault

/-- Embedding of `upload_to_backup_repo`: a fault in the copy loop is not
inside any `try:` and therefore propagates (`Except.error`); a fault in
`chdir`/`add`/`commit`/`push` is caught and printed as a warning.  The run
log is threaded through untouched, as the source never modifies
`self.backup_log` here. -/
def upload_to_backup_repo (env : PublishEnv) (log : BackupLog) :
    Except String (BackupLog × List String) :=
  match env.copyFault with
  | some e => .error e
  | none =>
    match gitFault env with
    | some e => .ok (log, ["✗ Failed to upload backup: " ++ e])
    | none => .ok (log, ["✓ Backup uploaded to GitHub"])

/-! ## Concrete sample inputs used by witnesses and counterexamples -/

def tsEx : String := "20240101_000000"

def envOk : StepEnv := ⟨.ok (), .ok "abc123", .ok (), true, 2048, .ok ()⟩

def envCloneFail : StepEnv := ⟨.error "exit status 1", .ok "", .ok (), true, 1, .ok ()⟩

/-- Archive produced and statted, but empty: the quiet verification
failure of line 110 of the source. -/
def envVerifyZero : StepEnv := ⟨.ok (), .ok "abc123", .ok (), true, 0, .ok ()⟩

def logEx : BackupLog := backup_all_repositories tsEx [("alpha", envOk)]

def providerFailEx : Nat → Except String (List String) :=
  fun _ => .error "gh: network unreachable"

def providerOkEx : Nat → Except String (List String) :=
  fun _ => .ok ["alpha", "backup", "beta"]

def artifactStale : Artifact := ⟨"alpha_old.tar.gz", true, 0, true⟩

def artifactBad : Artifact := ⟨"beta_old.tar.gz", true, 0, false⟩

def treeSwapA : FsEntry :=
  .dir [("b", .file (some [1, 2])), ("a", .file (some [3]))]

def treeSwapB : FsEntry :=
  .dir [("a", .file (some [3])), ("b", .file (some [1, 2]))]

theorem sha256hex_nil :
    sha256hex [] =
      "e3b0c44298fc1c149afbf4c8996fb92427ae41e4649b934ca495991b7852b855" := by
  decide

theorem sha256hex_abc :
    sha256hex [0x61, 0x62, 0x63] =
      "ba7816bf8f01cfea414140de5dae2223b00361a396177a9cb410ff61f20015ad" := by
  decide

/-! ## C2: success invariant of the per-repository record -/

/-- C2.  Record success invariant: whenever a finalized
`RepositoryBackupRecord` has `status = "success"`, its checksum and
archive path are present, the archive exists on disk, and its recorded
size is strictly positive. -/
theorem claim2_success_invariant (ts : String) (env : StepEnv) (name : String)
    (h : (backup_repository ts env name).record.status = "success") :
    (backup_repository ts env name).record.checksum.isSome = true ∧
    (backup_repository ts env name).record.archive_path.isSome = true ∧
    env.archiveExists = true ∧
    0 < (backup_repository ts env name).record.size_bytes := by
  obtain ⟨c, k, m, ex, sz, rm⟩ := env
  cases c <;> cases k <;> cases m <;> cases ex <;> cases rm <;>
    by_cases hsz : 0 < sz <;>
    simp_all [backup_repository, initRecord]

/-- Witness for C2 at a fully successful environment. -/
theorem claim2_witness :
    (backup_repository tsEx envOk "alpha").record.checksum.isSome = true ∧
    (backup_repository tsEx envOk "alpha").record.archive_path.isSome = true ∧
    envOk.archiveExists = true ∧
    0 < (backup_repository tsEx envOk "alpha").record.size_bytes :=
  claim2_success_invariant tsEx envOk "alpha" rfl

/-! ## C3: workspace release -/

/-- C3 counterexample.  The claim says the temporary workspace is removed
on every exit path, including clone failure; on the clone-failure path of
the source (early `return` on line 98, before the `shutil.rmtree` of line
114) it is not removed. -/
theorem claim3_counterexample :
    (backup_repository tsEx envCloneFail "alpha").tempRemoved = false ∧
    (backup_repository tsEx envCloneFail "alpha").record.status = "failed" :=
  ⟨rfl, rfl⟩

/-- C3 amended.  The workspace is removed exactly on the path where the
clone, the checksum, `make_archive`, the archive `stat` and the `rmtree`
itself all complete without fault; on a clone failure or any caught fault
the per-repository workspace is left on disk. -/
theorem claim3_amended (ts : String) (env : StepEnv) (name : String) :
    (backup_repository ts env name).tempRemoved = true ↔
      (env.cloneRes.isOk = true ∧ env.checksumRes.isOk = true ∧
       env.makeRes.isOk = true ∧ env.archiveExists = true ∧
       env.rmtreeRes.isOk = true) := by
  obtain ⟨c, k, m, ex, sz, rm⟩ := env
  cases c <;> cases k <;> cases m <;> cases ex <;> cases rm <;>
    by_cases hsz : 0 < sz <;>
    simp_all [backup_repository, Except.isOk, Except.toBool]

/-! ## C4: failed records and partially populated fields -/

/-- C4 counterexample.  A record that fails verification (archive exists
with size 0) keeps the computed checksum and the archive path, refuting
"checksum absent, archive_path absent" for that failure. -/
theorem claim4_counterexample :
    (backup_repository tsEx envVerifyZero "alpha").record.status = "failed" ∧
    (backup_repository tsEx envVerifyZero "alpha").record.checksum =
      some "abc123" ∧
    (backup_repository tsEx envVerifyZero "alpha").record.archive_path =
      some "alpha_20240101_000000.tar.gz" :=
  ⟨rfl, rfl, rfl⟩

/-- C4 amended.  Every failing record is finalized with `status = "failed"`,
but the populated fields reflect how far the pipeline got: clone or
checksum failures leave checksum, archive path and size unset; a
`make_archive` fault leaves the checksum; a `stat` fault or a failed
verification additionally leaves the archive path (size stays 0). -/
theorem claim4_amended (ts : String) (env : StepEnv) (name : String) :
    ((backup_repository ts env name).record.status = "success" ∨
     (backup_repository ts env name).record.status = "failed") ∧
    (env.cloneRes.isOk = false →
      (backup_repository ts env name).record.status = "failed" ∧
      (backup_repository ts env name).record.checksum = none ∧
      (backup_repository ts env name).record.archive_path = none ∧
      (backup_repository ts env name).record.size_bytes = 0) ∧
    (env.checksumRes.isOk = false →
      (backup_repository ts env name).record.status = "failed" ∧
      (backup_repository ts env name).record.checksum = none ∧
      (backup_repository ts env name).record.archive_path = none ∧
      (backup_repository ts env name).record.size_bytes = 0) ∧
    (env.cloneRes.isOk = true → env.checksumRes.isOk = true →
     env.makeRes.isOk = false →
      (backup_repository ts env name).record.status = "failed" ∧
      (backup_repository ts env name).record.checksum.isSome = true ∧
      (backup_repository ts env name).record.archive_path = none ∧
      (backup_repository ts env name).record.size_bytes = 0) ∧
    (env.cloneRes.isOk = true → env.checksumRes.isOk = true →
     env.makeRes.isOk = true → env.archiveExists = false →
      (backup_repository ts env name).record.status = "failed" ∧
      (backup_repository ts env name).record.checksum.isSome = true ∧
      (backup_repository ts env name).record.archive_path =
        some (archivePath ts name) ∧
      (backup_repository ts env name).record.size_bytes = 0) ∧
    (env.cloneRes.isOk = true → env.checksumRes.isOk = true →
     env.makeRes.isOk = true → env.archiveExists = true →
     env.archiveSize = 0 →
      (backup_repository ts env name).record.status = "failed" ∧
      (backup_repository ts env name).record.checksum.isSome = true ∧
      (backup_repository ts env name).record.archive_path =
        some (archivePath ts name) ∧
      (backup_repository ts env name).record.size_bytes = 0) := by
  obtain ⟨c, k, m, ex, sz, rm⟩ := env
  cases c <;> cases k <;> cases m <;> cases ex <;> cases rm <;>
    by_cases hsz : 0 < sz <;>
    simp_all [backup_repository, initRecord, Except.isOk, Except.toBool]

/-- Witness for C4 amended, at the clone-failure environment. -/
theorem claim4_witness :
    (backup_repository tsEx envCloneFail "alpha").record.status = "failed" ∧
    (backup_repository tsEx envCloneFail "alpha").record.checksum = none ∧
    (backup_repository tsEx envCloneFail "alpha").record.archive_path = none ∧
    (backup_repository tsEx envCloneFail "alpha").record.size_bytes = 0 :=
  (claim4_amended tsEx envCloneFail "alpha").2.1 rfl

/-! ## C5: run status aggregation -/

/-- C5.  At the end of `backup_all_repositories` the run status is
`"completed"` iff every record succeeded (in particular for zero
repositories), `"partial"` otherwise, and the summary satisfies
`total = success + failed = number of records`. -/
theorem claim5_status_aggregation (ts : String)
    (repos : List (String × StepEnv)) :
    ((backup_all_repositories ts repos).status = "completed" ↔
      ∀ r ∈ (backup_all_repositories ts repos).repositories,
        r.status = "success") ∧
    ((backup_all_repositories ts repos).status = "completed" ∨
     (backup_all_repositories ts repos).status = "partial") ∧
    (backup_all_repositories ts repos).summary.total =
      (backup_all_repositories ts repos).repositories.length ∧
    (backup_all_repositories ts repos).summary.total =
      (backup_all_repositories ts repos).summary.success +
        (backup_all_repositories ts repos).summary.failed ∧
    (repos = [] →
      (backup_all_repositories ts repos).status = "completed" ∧
      (backup_all_repositories ts repos).summary = ⟨0, 0, 0⟩) := by
  have hlen : ((repos.map (fun p => backup_repository ts p.2 p.1)).map
      (fun x => x.record)).length = repos.length := by simp
  have hle : List.countP (fun r : RepoRecord => r.status == "success")
      ((repos.map (fun p => backup_repository ts p.2 p.1)).map
        (fun x => x.record)) ≤
      ((repos.map (fun p => backup_repository ts p.2 p.1)).map
        (fun x => x.record)).length :=
    List.countP_le_length _
  refine ⟨?_, ?_, ?_, ?_, ?_⟩
  · simp only [backup_all_repositories]
    by_cases hc : List.countP (fun r : RepoRecord => r.status == "success")
        ((repos.map (fun p => backup_repository ts p.2 p.1)).map
          (fun x => x.record)) = repos.length
    · rw [if_pos (by simpa using hc)]
      rw [← hlen] at hc
      rw [List.countP_eq_length] at hc
      simp only [true_iff]
      intro r hr
      simpa using hc r hr
    · rw [if_neg (by simpa using hc)]
      constructor
      · intro h
        exact absurd h (by decide)
      · intro h
        refine absurd ?_ hc
        rw [← hlen, List.countP_eq_length]
        intro r hr
        simpa using h r hr
  · simp only [backup_all_repositories]
    split <;> simp
  · simp [backup_all_repositories]
  · simp only [backup_all_repositories]
    rw [← hlen] at *
    omega
  · intro h
    subst h
    constructor <;> rfl

/-- Witness for C5 at the empty repository list. -/
theorem claim5_witness :
    (backup_all_repositories tsEx []).status = "completed" ∧
    (backup_all_repositories tsEx []).summary = ⟨0, 0, 0⟩ :=
  (claim5_status_aggregation tsEx []).2.2.2.2 rfl

/-! ## C7: retention pruning -/

theorem cleanupScan_fst (cutoff : Int) (store : List Artifact) :
    (cleanupScan cutoff store).1 =
      store.filter
        (fun a => a.isTarGz && decide (a.mtime < cutoff) && a.unlinkOk) := by
  induction store with
  | nil => rfl
  | cons a rest ih =>
    cases h1 : (a.isTarGz && decide (a.mtime < cutoff)) <;>
      cases h2 : a.unlinkOk <;>
      simp [cleanupScan, List.filter_cons, h1, h2, ih]

/-- C7.  `cleanup_old_backups` deletes an archive artifact exactly when it
matches the `*.tar.gz` glob, is strictly older than the retention window
(`now - mtime > retention_days * 86400`), and its `unlink` succeeds; a
deletion failure for one artifact leaves the deletions of the remaining
artifacts unchanged. -/
theorem claim7_retention (now retention_days : Int) (store : List Artifact) :
    (∀ a : Artifact,
      a ∈ (cleanup_old_backups now retention_days store).1 ↔
        (a ∈ store ∧ a.isTarGz = true ∧
         retention_days * 86400 < now - a.mtime ∧ a.unlinkOk = true)) ∧
    (∀ pre post (b : Artifact), b.unlinkOk = false →
      (cleanup_old_backups now retention_days (pre ++ b :: post)).1 =
        (cleanup_old_backups now retention_days (pre ++ post)).1) := by
  constructor
  · intro a
    rw [cleanup_old_backups, cleanupScan_fst, List.mem_filter]
    simp only [Bool.and_eq_true, decide_eq_true_eq]
    constructor
    · rintro ⟨hm, ⟨⟨h1, h2⟩, h3⟩⟩
      exact ⟨hm, h1, by omega, h3⟩
    · rintro ⟨hm, h1, h2, h3⟩
      exact ⟨hm, ⟨⟨h1, by omega⟩, h3⟩⟩
  · intro pre post b hb
    rw [cleanup_old_backups, cleanup_old_backups, cleanupScan_fst,
      cleanupScan_fst, List.filter_append, List.filter_append, List.filter]
    simp [hb]

/-- Witness for C7: a stale `*.tar.gz` artifact is deleted, and a failing
deletion does not change the other deletions. -/
theorem claim7_witness :
    artifactStale ∈ (cleanup_old_backups 5184000 30 [artifactStale]).1 ∧
    (cleanup_old_backups 5184000 30 [artifactBad, artifactStale]).1 =
      (cleanup_old_backups 5184000 30 [artifactStale]).1 :=
  ⟨((claim7_retention 5184000 30 [artifactStale]).1 artifactStale).mpr
      ⟨by decide, rfl, by decide, rfl⟩,
   (claim7_retention 5184000 30 [artifactStale]).2 [] [artifactStale]
      artifactBad rfl⟩

/-! ## C8: publisher failure containment -/

/-- C8 counterexample.  A failure in the artifact-copy loop (which runs
before the `try:` block of `upload_to_backup_repo`) propagates out of the
publisher as an unhandled fault, refuting "any failure at any step of
publication ... is caught inside `upload_to_backup_repo`". -/
theorem claim8_counterexample :
    upload_to_backup_repo
        ⟨some "copy failed: disk full", none, none, none, none⟩ logEx =
      .error "copy failed: disk full" := rfl

/-- C8 amended.  Failures of `chdir`, `git add`, `git commit` or `git push`
are caught inside `upload_to_backup_repo` and reported as a warning, and no
publish outcome ever alters the recorded run log; a failure while copying
artifacts into the sink, however, propagates out uncaught. -/
theorem claim8_amended (env : PublishEnv) (log : BackupLog) :
    (env.copyFault = none →
      upload_to_backup_repo env log =
        .ok (log,
          match gitFault env with
          | some e => ["✗ Failed to upload backup: " ++ e]
          | none => ["✓ Backup uploaded to GitHub"])) ∧
    (∀ log' msgs, upload_to_backup_repo env log = .ok (log', msgs) →
      log' = log) := by
  constructor
  · intro hc
    cases hg : gitFault env <;>
      simp [upload_to_backup_repo, hc, hg]
  · intro log' msgs h
    cases hc : env.copyFault <;> rw [upload_to_backup_repo] at h <;>
      rw [hc] at h
    · cases hg : gitFault env <;> rw [hg] at h <;>
        · simp only [Except.ok.injEq, Prod.mk.injEq] at h
          exact h.1.symm
    · simp at h

/-- Witness for C8 amended: a `git commit` fault is caught and reported as
a warning, leaving the log untouched. -/
theorem claim8_witness :
    upload_to_backup_repo ⟨none, none, none, some "nothing to commit", none⟩
        logEx =
      .ok (logEx, ["✗ Failed to upload backup: " ++ "nothing to commit"]) :=
  (claim8_amended ⟨none, none, none, some "nothing to commit", none⟩ logEx).1
    rfl

/-! ## C9: enumerator contract -/

/-- C9.  `get_all_repositories` requests at most 100 repositories (so a
limit-honoring provider yields at most 100 names), never returns the
backup sink's own name `"backup"`, and on a listing failure returns the
empty list after appending exactly one diagnostic, never raising. -/
theorem claim9_enumerator (provider : Nat → Except String (List String))
    (errors : List String) :
    ("backup" ∉ (get_all_repositories provider errors).1) ∧
    (∀ e, provider 100 = .error e →
      get_all_repositories provider errors =
        ([], errors ++ ["Failed to list repositories: " ++ e])) ∧
    ((∀ l, provider 100 = .ok l → l.length ≤ 100) →
      (get_all_repositories provider errors).1.length ≤ 100) := by
  refine ⟨?_, ?_, ?_⟩
  · cases h : provider 100 with
    | error e => simp [get_all_repositories, h]
    | ok l => simp [get_all_repositories, h, List.mem_filter]
  · intro e he
    simp [get_all_repositories, he]
  · intro hl
    cases h : provider 100 with
    | error e => simp [get_all_repositories, h]
    | ok l =>
      simp only [get_all_repositories, h]
      exact le_trans (List.length_filter_le _ l) (hl l h)

/-- Witness for C9 at a failing provider and at a provider that lists the
sink repository. -/
theorem claim9_witness :
    get_all_repositories providerFailEx [] =
      ([], ["Failed to list repositories: " ++ "gh: network unreachable"]) ∧
    "backup" ∉ (get_all_repositories providerOkEx []).1 :=
  ⟨(claim9_enumerator providerFailEx []).2.1 "gh: network unreachable" rfl,
   (claim9_enumerator providerOkEx []).1⟩

/-! ## C1: per-repository failure isolation -/

/-- C1 counterexample.  A repository whose processing fails at the
verification step (archive exists but is empty) is finalized as `failed`
with NO diagnostic recorded at all — refuting the claim's "a diagnostic
naming R is recorded" for that failing step. -/
theorem claim1_counterexample :
    (backup_repository tsEx envVerifyZero "alpha").record.status = "failed" ∧
    (backup_repository tsEx envVerifyZero "alpha").diags = [] :=
  ⟨rfl, rfl⟩

/-- C1 amended.  Any failure at the clone, checksum, archive or verify
step is contained inside the processing of that repository (the embedding
of `backup_repository` is a total function of the step outcomes): the
record is finalized as `failed`; for clone failures and caught faults
(checksum, `make_archive`, archive `stat`) a diagnostic naming the
repository is recorded, while a quiet verification failure records none;
every repository yields exactly one record, and the record of any other
repository is unchanged whatever the outcome of this one. -/
theorem claim1_isolation :
    (∀ ts (env : StepEnv) name,
      (env.cloneRes.isOk = false ∨ env.checksumRes.isOk = false ∨
       env.makeRes.isOk = false ∨ env.archiveExists = false ∨
       env.archiveSize = 0) →
      (backup_repository ts env name).record.status = "failed") ∧
    (∀ ts (env : StepEnv) name,
      (env.cloneRes.isOk = false ∨
       (env.checksumRes.isOk = false) ∨
       (env.checksumRes.isOk = true ∧ env.makeRes.isOk = false) ∨
       (env.checksumRes.isOk = true ∧ env.makeRes.isOk = true ∧
        env.archiveExists = false)) →
      ∃ s₁ s₂, (backup_repository ts env name).diags = [s₁ ++ name ++ s₂]) ∧
    (∀ ts repos,
      (backup_all_repositories ts repos).repositories.length =
        repos.length) ∧
    (∀ ts repos i (p' : String × StepEnv) j, j ≠ i →
      (backup_all_repositories ts (repos.set i p')).repositories[j]? =
        (backup_all_repositories ts repos).repositories[j]?) := by
  refine ⟨?_, ?_, ?_, ?_⟩
  · intro ts env name h
    obtain ⟨c, k, m, ex, sz, rm⟩ := env
    cases c <;> cases k <;> cases m <;> cases ex <;> cases rm <;>
      by_cases hsz : sz = 0 <;>
      simp_all [backup_repository, initRecord, Except.isOk, Except.toBool]
  · intro ts env name h
    obtain ⟨c, k, m, ex, sz, rm⟩ := env
    cases c with
    | error e =>
      exact ⟨"Failed to clone ", ": " ++ e, by simp [backup_repository, String.append_assoc]⟩
    | ok _ =>
      cases k with
      | error e =>
        exact ⟨"Backup failed for ", ": " ++ e, by simp [backup_repository, String.append_assoc]⟩
      | ok cs =>
        cases m with
        | error e =>
          exact ⟨"Backup failed for ", ": " ++ e, by simp [backup_repository, String.append_assoc]⟩
        | ok _ =>
          cases ex with
          | false =>
            exact ⟨"Backup failed for ",
              ": " ++ ("stat: " ++ archivePath ts name),
              by simp [backup_repository, String.append_assoc]⟩
          | true =>
            exfalso
            simp [Except.isOk, Except.toBool] at h
  · intro ts repos
    simp [backup_all_repositories]
  · intro ts repos i p' j hji
    simp only [backup_all_repositories, List.map_set]
    rw [List.getElem?_set_ne (by omega)]

/-- Witness for C1 amended: a clone failure yields a failed record with a
diagnostic naming the repository; a two-repository run yields two records,
and replacing the failing repository's outcomes with succeeding ones
leaves the other record unchanged. -/
theorem claim1_witness :
    (backup_repository tsEx envCloneFail "beta").record.status = "failed" ∧
    (∃ s₁ s₂,
      (backup_repository tsEx envCloneFail "beta").diags =
        [s₁ ++ "beta" ++ s₂]) ∧
    (backup_all_repositories tsEx
        [("alpha", envOk), ("beta", envCloneFail)]).repositories.length =
      2 ∧
    (backup_all_repositories tsEx
        ([("alpha", envOk), ("beta", envCloneFail)].set 1
          ("beta", envOk))).repositories[0]? =
      (backup_all_repositories tsEx
        [("alpha", envOk), ("beta", envCloneFail)]).repositories[0]? :=
  ⟨claim1_isolation.1 tsEx envCloneFail "beta" (Or.inl rfl),
   claim1_isolation.2.1 tsEx envCloneFail "beta" (Or.inl rfl),
   claim1_isolation.2.2.1 tsEx [("alpha", envOk), ("beta", envCloneFail)],
   claim1_isolation.2.2.2 tsEx [("alpha", envOk), ("beta", envCloneFail)] 1
     ("beta", envOk) 0 (by decide)⟩

/-! ## Equation and congruence lemmas for the checksum walk -/

theorem walkBytes_file (c : Option (List Nat)) : walkBytes (.file c) = [] := by
  rw [walkBytes]

theorem walkBytes_dir (cs : List (String × FsEntry)) :
    walkBytes (.dir cs) =
      filesBytes (List.insertionSort entryLe cs) ++
        walkSubdirs (List.insertionSort entryLe cs) := by
  rw [walkBytes]

theorem walkSubdirs_nil : walkSubdirs [] = [] := by
  rw [walkSubdirs]

theorem walkSubdirs_cons (p : String × FsEntry)
    (rest : List (String × FsEntry)) :
    walkSubdirs (p :: rest) =
      (if p.2.isFile then [] else walkBytes p.2) ++ walkSubdirs rest := by
  obtain ⟨n, e⟩ := p
  rw [walkSubdirs]

theorem canon_file (c : Option (List Nat)) : canon (.file c) = .file c := by
  rw [canon]

theorem canon_dir (cs : List (String × FsEntry)) :
    canon (.dir cs) = .dir (List.insertionSort entryLe (canonList cs)) := by
  rw [canon]

theorem canonList_eq_map (l : List (String × FsEntry)) :
    canonList l = l.map (fun p => (p.1, canon p.2)) := by
  induction l with
  | nil => rw [canonList]; rfl
  | cons p rest ih =>
    obtain ⟨n, e⟩ := p
    rw [canonList, ih]
    rfl

theorem renameTree_file (f : String → String) (c : Option (List Nat)) :
    renameTree f (.file c) = .file c := by
  rw [renameTree]

theorem renameTree_dir (f : String → String) (cs : List (String × FsEntry)) :
    renameTree f (.dir cs) = .dir (renameList f cs) := by
  rw [renameTree]

theorem renameList_eq_map (f : String → String)
    (l : List (String × FsEntry)) :
    renameList f l = l.map (fun p => (f p.1, renameTree f p.2)) := by
  induction l with
  | nil => rw [renameList]; rfl
  | cons p rest ih =>
    obtain ⟨n, e⟩ := p
    rw [renameList, ih]
    rfl

theorem noReadable_file (c : Option (List Nat)) :
    noReadable (.file c) = c.isNone := by
  rw [noReadable]

theorem noReadable_dir (cs : List (String × FsEntry)) :
    noReadable (.dir cs) = noReadableList cs := by
  rw [noReadable]

theorem noReadableList_nil : noReadableList [] = true := by
  rw [noReadableList]

theorem noReadableList_cons (p : String × FsEntry)
    (rest : List (String × FsEntry)) :
    noReadableList (p :: rest) = (noReadable p.2 && noReadableList rest) := by
  obtain ⟨n, e⟩ := p
  rw [noReadableList]

theorem isFile_canon (e : FsEntry) : (canon e).isFile = e.isFile := by
  cases e with
  | file c => rw [canon_file]
  | dir cs => rw [canon_dir]; rfl

theorem readBytes_canon (e : FsEntry) : readBytes (canon e) = readBytes e := by
  cases e with
  | file c => rw [canon_file]
  | dir cs => rw [canon_dir]; rfl

theorem isFile_rename (f : String → String) (e : FsEntry) :
    (renameTree f e).isFile = e.isFile := by
  cases e with
  | file c => rw [renameTree_file]
  | dir cs => rw [renameTree_dir]; rfl

theorem readBytes_rename (f : String → String) (e : FsEntry) :
    readBytes (renameTree f e) = readBytes e := by
  cases e with
  | file c => rw [renameTree_file]
  | dir cs => rw [renameTree_dir]; rfl

theorem filesBytes_map (g : String × FsEntry → String × FsEntry)
    (hf : ∀ p : String × FsEntry, (g p).2.isFile = p.2.isFile)
    (hr : ∀ p : String × FsEntry, readBytes (g p).2 = readBytes p.2)
    (l : List (String × FsEntry)) :
    filesBytes (l.map g) = filesBytes l := by
  induction l with
  | nil => rfl
  | cons p rest ih =>
    obtain ⟨n, e⟩ := p
    have h1 := hf (n, e)
    have h2 := hr (n, e)
    simp only [List.map_cons, filesBytes]
    rw [ih]
    cases hfe : e.isFile <;> rw [hfe] at h1 <;> simp [h1, h2]

theorem insertionSort_map (g : String × FsEntry → String × FsEntry)
    (hg : ∀ p q : String × FsEntry, entryLe p q ↔ entryLe (g p) (g q))
    (l : List (String × FsEntry)) :
    List.insertionSort entryLe (l.map g) =
      (List.insertionSort entryLe l).map g :=
  (List.map_insertionSort entryLe entryLe g l
    (fun a _ b _ => hg a b)).symm

theorem sizeOf_snd_lt_of_mem {p : String × FsEntry}
    {l : List (String × FsEntry)} (hp : p ∈ l) : sizeOf p.2 < sizeOf l := by
  have h1 : sizeOf p < sizeOf l := List.sizeOf_lt_of_mem hp
  have h2 : sizeOf p.2 < sizeOf p := by
    obtain ⟨a, b⟩ := p
    simp only [Prod.mk.sizeOf_spec]
    omega
  omega

theorem walkBytes_canon_aux :
    ∀ (n : Nat) (t : FsEntry), sizeOf t ≤ n →
      walkBytes (canon t) = walkBytes t := by
  intro n
  induction n with
  | zero =>
    intro t ht
    exfalso
    cases t <;> simp_all
  | succ n ih =>
    intro t ht
    cases t with
    | file c => rw [canon_file]
    | dir cs =>
      have hbound : ∀ p ∈ List.insertionSort entryLe cs, sizeOf p.2 ≤ n := by
        intro p hp
        have hp' : p ∈ cs := (List.mem_insertionSort entryLe).mp hp
        have h1 := sizeOf_snd_lt_of_mem hp'
        simp only [FsEntry.dir.sizeOf_spec] at ht
        omega
      rw [canon_dir, walkBytes_dir, walkBytes_dir,
        (List.sorted_insertionSort entryLe (canonList cs)).insertionSort_eq,
        canonList_eq_map,
        insertionSort_map (fun p => (p.1, canon p.2)) (fun p q => Iff.rfl)]
      have hfiles := filesBytes_map (fun p => (p.1, canon p.2))
        (fun p => isFile_canon p.2) (fun p => readBytes_canon p.2)
        (List.insertionSort entryLe cs)
      rw [hfiles]
      have hsub : ∀ l : List (String × FsEntry),
          (∀ p ∈ l, sizeOf p.2 ≤ n) →
          walkSubdirs (l.map (fun p => (p.1, canon p.2))) = walkSubdirs l := by
        intro l
        induction l with
        | nil => intro _; rfl
        | cons p rest ihl =>
          intro hb
          rw [List.map_cons, walkSubdirs_cons, walkSubdirs_cons,
            ihl (fun q hq => hb q (List.mem_cons_of_mem _ hq))]
          congr 1
          simp only [isFile_canon]
          cases hfe : p.2.isFile with
          | true => simp
          | false =>
            simp only [Bool.false_eq_true, if_false]
            exact ih p.2 (hb p (List.mem_cons_self _ _))
      rw [hsub (List.insertionSort entryLe cs) hbound]

theorem walkBytes_canon (t : FsEntry) : walkBytes (canon t) = walkBytes t :=
  walkBytes_canon_aux (sizeOf t) t le_rfl

theorem walkBytes_rename_aux (f : String → String)
    (hf : ∀ a b, f a ≤ f b ↔ a ≤ b) :
    ∀ (n : Nat) (t : FsEntry), sizeOf t ≤ n →
      walkBytes (renameTree f t) = walkBytes t := by
  intro n
  induction n with
  | zero =>
    intro t ht
    exfalso
    cases t <;> simp_all
  | succ n ih =>
    intro t ht
    cases t with
    | file c => rw [renameTree_file]
    | dir cs =>
      have hbound : ∀ p ∈ List.insertionSort entryLe cs, sizeOf p.2 ≤ n := by
        intro p hp
        have hp' : p ∈ cs := (List.mem_insertionSort entryLe).mp hp
        have h1 := sizeOf_snd_lt_of_mem hp'
        simp only [FsEntry.dir.sizeOf_spec] at ht
        omega
      rw [renameTree_dir, walkBytes_dir, walkBytes_dir, renameList_eq_map,
        insertionSort_map (fun p => (f p.1, renameTree f p.2))
          (fun p q => (hf p.1 q.1).symm)]
      have hfiles := filesBytes_map (fun p => (f p.1, renameTree f p.2))
        (fun p => isFile_rename f p.2) (fun p => readBytes_rename f p.2)
        (List.insertionSort entryLe cs)
      rw [hfiles]
      have hsub : ∀ l : List (String × FsEntry),
          (∀ p ∈ l, sizeOf p.2 ≤ n) →
          walkSubdirs (l.map (fun p => (f p.1, renameTree f p.2))) =
            walkSubdirs l := by
        intro l
        induction l with
        | nil => intro _; rfl
        | cons p rest ihl =>
          intro hb
          rw [List.map_cons, walkSubdirs_cons, walkSubdirs_cons,
            ihl (fun q hq => hb q (List.mem_cons_of_mem _ hq))]
          congr 1
          simp only [isFile_rename]
          cases hfe : p.2.isFile with
          | true => simp
          | false =>
            simp only [Bool.false_eq_true, if_false]
            exact ih p.2 (hb p (List.mem_cons_self _ _))
      rw [hsub (List.insertionSort entryLe cs) hbound]

theorem walkBytes_rename (f : String → String)
    (hf : ∀ a b, f a ≤ f b ↔ a ≤ b) (t : FsEntry) :
    walkBytes (renameTree f t) = walkBytes t :=
  walkBytes_rename_aux f hf (sizeOf t) t le_rfl

theorem readBytes_eq_nil_of_noReadable {e : FsEntry}
    (h : noReadable e = true) : readBytes e = [] := by
  cases e with
  | file c =>
    cases c with
    | none => rfl
    | some c => rw [noReadable_file] at h; simp at h
  | dir cs => rfl

theorem noReadableList_mem {l : List (String × FsEntry)}
    (h : noReadableList l = true) : ∀ p ∈ l, noReadable p.2 = true := by
  induction l with
  | nil => intro p hp; cases hp
  | cons q rest ih =>
    rw [noReadableList_cons] at h
    intro p hp
    simp only [Bool.and_eq_true] at h
    rcases List.mem_cons.mp hp with rfl | hp'
    · exact h.1
    · exact ih h.2 p hp'

theorem walkBytes_eq_nil_of_noReadable_aux :
    ∀ (n : Nat) (t : FsEntry), sizeOf t ≤ n → noReadable t = true →
      walkBytes t = [] := by
  intro n
  induction n with
  | zero =>
    intro t ht
    exfalso
    cases t <;> simp_all
  | succ n ih =>
    intro t ht hnr
    cases t with
    | file c => rw [walkBytes_file]
    | dir cs =>
      rw [noReadable_dir] at hnr
      have hmem : ∀ p ∈ List.insertionSort entryLe cs, noReadable p.2 = true :=
        fun p hp =>
          noReadableList_mem hnr p ((List.mem_insertionSort entryLe).mp hp)
      have hbound : ∀ p ∈ List.insertionSort entryLe cs, sizeOf p.2 ≤ n := by
        intro p hp
        have hp' : p ∈ cs := (List.mem_insertionSort entryLe).mp hp
        have h1 := sizeOf_snd_lt_of_mem hp'
        simp only [FsEntry.dir.sizeOf_spec] at ht
        omega
      rw [walkBytes_dir]
      have hfb : ∀ l : List (String × FsEntry),
          (∀ p ∈ l, noReadable p.2 = true) → filesBytes l = [] := by
        intro l
        induction l with
        | nil => intro _; rfl
        | cons p rest ihl =>
          intro hb
          obtain ⟨nm, e⟩ := p
          have he := hb (nm, e) (List.mem_cons_self _ _)
          simp only [filesBytes]
          rw [ihl (fun q hq => hb q (List.mem_cons_of_mem _ hq))]
          cases hfe : e.isFile <;>
            simp [readBytes_eq_nil_of_noReadable he]
      have hsd : ∀ l : List (String × FsEntry),
          (∀ p ∈ l, noReadable p.2 = true) → (∀ p ∈ l, sizeOf p.2 ≤ n) →
          walkSubdirs l = [] := by
        intro l
        induction l with
        | nil => intro _ _; exact walkSubdirs_nil
        | cons p rest ihl =>
          intro hb hs
          rw [walkSubdirs_cons,
            ihl (fun q hq => hb q (List.mem_cons_of_mem _ hq))
              (fun q hq => hs q (List.mem_cons_of_mem _ hq))]
          cases hfe : p.2.isFile with
          | true => simp
          | false =>
            simp only [Bool.false_eq_true, if_false, List.append_nil]
            exact ih p.2 (hs p (List.mem_cons_self _ _))
              (hb p (List.mem_cons_self _ _))
      rw [hfb _ hmem, hsd _ hmem hbound]
      rfl

theorem walkBytes_eq_nil_of_noReadable {t : FsEntry}
    (h : noReadable t = true) : walkBytes t = [] :=
  walkBytes_eq_nil_of_noReadable_aux (sizeOf t) t le_rfl h

/-! ## Sorted lists with distinct keys, and reorderings -/

theorem sorted_key_eq {l₁ l₂ : List (String × FsEntry)} (hp : l₁.Perm l₂)
    (h₁ : l₁.Sorted entryLe) (h₂ : l₂.Sorted entryLe)
    (hnd : (l₁.map Prod.fst).Nodup) : l₁ = l₂ := by
  haveI : IsAntisymm (String × FsEntry) (fun p q => p.1 < q.1) :=
    ⟨fun a b h1 h2 => absurd h2 (lt_asymm h1)⟩
  have hnd₂ : (l₂.map Prod.fst).Nodup := (hp.map Prod.fst).nodup_iff.mp hnd
  have hne₁ : l₁.Pairwise (fun p q => p.1 ≠ q.1) := List.pairwise_map.mp hnd
  have hne₂ : l₂.Pairwise (fun p q => p.1 ≠ q.1) := List.pairwise_map.mp hnd₂
  have hs₁ : l₁.Sorted (fun p q : String × FsEntry => p.1 < q.1) :=
    (h₁.and hne₁).imp (fun h => lt_of_le_of_ne h.1 h.2)
  have hs₂ : l₂.Sorted (fun p q : String × FsEntry => p.1 < q.1) :=
    (h₂.and hne₂).imp (fun h => lt_of_le_of_ne h.1 h.2)
  exact @List.eq_of_perm_of_sorted _ (fun p q => p.1 < q.1) _ _ _ hp hs₁ hs₂

theorem canonList_map_fst (l : List (String × FsEntry)) :
    (canonList l).map Prod.fst = l.map Prod.fst := by
  rw [canonList_eq_map, List.map_map]
  rfl

theorem reorder_WF : ∀ {t t' : FsEntry}, Reorder t t' → WF t → WF t' := by
  intro t t' h
  induction h with
  | swapTop pre p q post =>
    intro hwf
    cases hwf with
    | dir hnd hall =>
      have hperm : (pre ++ p :: q :: post).Perm (pre ++ q :: p :: post) :=
        List.Perm.append_left pre (List.Perm.swap q p post)
      exact WF.dir ((hperm.map Prod.fst).nodup_iff.mp hnd)
        (fun r hr => hall r (hperm.mem_iff.mpr hr))
  | @congr pre n post e e' hstep ih =>
    intro hwf
    cases hwf with
    | dir hnd hall =>
      refine WF.dir ?_ ?_
      · have hfst : (pre ++ (n, e') :: post).map Prod.fst =
            (pre ++ (n, e) :: post).map Prod.fst := by
          simp
        rw [hfst]
        exact hnd
      · intro r hr
        rcases List.mem_append.mp hr with hr' | hr'
        · exact hall r (List.mem_append.mpr (Or.inl hr'))
        · rcases List.mem_cons.mp hr' with rfl | hr''
          · exact ih (hall (n, e)
              (List.mem_append.mpr (Or.inr (List.mem_cons_self _ _))))
          · exact hall r
              (List.mem_append.mpr (Or.inr (List.mem_cons_of_mem _ hr'')))

theorem reorderedFrom_WF {t t' : FsEntry} (h : ReorderedFrom t t')
    (hwf : WF t) : WF t' := by
  induction h with
  | refl => exact hwf
  | tail _ hstep ih => exact reorder_WF hstep ih

theorem reorder_canon_eq :
    ∀ {t t' : FsEntry}, Reorder t t' → WF t → canon t = canon t' := by
  intro t t' h
  induction h with
  | swapTop pre p q post =>
    intro hwf
    cases hwf with
    | dir hnd hall =>
      rw [canon_dir, canon_dir]
      congr 1
      have hperm0 : (pre ++ p :: q :: post).Perm (pre ++ q :: p :: post) :=
        List.Perm.append_left pre (List.Perm.swap q p post)
      have hpermc : (canonList (pre ++ p :: q :: post)).Perm
          (canonList (pre ++ q :: p :: post)) := by
        rw [canonList_eq_map, canonList_eq_map]
        exact hperm0.map _
      apply sorted_key_eq
      · exact ((List.perm_insertionSort entryLe _).trans hpermc).trans
          (List.perm_insertionSort entryLe _).symm
      · exact List.sorted_insertionSort entryLe _
      · exact List.sorted_insertionSort entryLe _
      · have h1 := (List.perm_insertionSort entryLe
          (canonList (pre ++ p :: q :: post))).map Prod.fst
        rw [canonList_map_fst] at h1
        exact h1.nodup_iff.mpr hnd
  | @congr pre n post e e' hstep ih =>
    intro hwf
    cases hwf with
    | dir hnd hall =>
      rw [canon_dir, canon_dir]
      have he : canon e = canon e' :=
        ih (hall (n, e)
          (List.mem_append.mpr (Or.inr (List.mem_cons_self _ _))))
      have hlist : canonList (pre ++ (n, e) :: post) =
          canonList (pre ++ (n, e') :: post) := by
        rw [canonList_eq_map, canonList_eq_map]
        simp [he]
      rw [hlist]

theorem reordered_canon_eq {t t' : FsEntry} (h : ReorderedFrom t t')
    (hwf : WF t) : canon t = canon t' := by
  induction h with
  | refl => rfl
  | tail hrtg hstep ih =>
    exact ih.trans (reorder_canon_eq hstep (reorderedFrom_WF hrtg hwf))

/-! ## C6: checksum determinism -/

/-- C6.  Checksum determinism: for a well-formed directory tree (distinct
entry names at every level, as on a real filesystem), the digest computed
by `calculate_checksum` is unchanged under any permutation of the
filesystem's native iteration order of the entries at each level —
`ReorderedFrom` is the closure of sibling reorderings at arbitrary depth —
because names are sorted before visiting. -/
theorem claim6_checksum_deterministic (t t' : FsEntry) (hwf : WF t)
    (h : ReorderedFrom t t') :
    calculate_checksum t = calculate_checksum t' := by
  unfold calculate_checksum
  rw [← walkBytes_canon t, ← walkBytes_canon t', reordered_canon_eq h hwf]

/-- Witness for C6: swapping the two entries of a concrete directory
leaves the digest unchanged. -/
theorem claim6_witness :
    calculate_checksum treeSwapA = calculate_checksum treeSwapB := by
  apply claim6_checksum_deterministic
  · refine WF.dir ?_ ?_
    · simp [treeSwapA]
    · intro p hp
      simp only [treeSwapA, List.mem_cons, List.not_mem_nil, or_false] at hp
      rcases hp with rfl | rfl <;> exact WF.file _
  · exact Relation.ReflTransGen.single
      (Reorder.swapTop [] ("b", .file (some [1, 2]))
        ("a", .file (some [3])) [])

/-! ## C10: the checksum reference definition -/

/-- C10.  `calculate_checksum` is exactly the lowercase hex SHA-256 digest
of the concatenated bytes of the readable regular files in sorted
traversal order (`walkBytes`); consequently entry names are not hashed —
renaming every entry through any order-preserving map leaves the digest
unchanged — and a tree containing no readable file hashes to the SHA-256
digest of the empty byte string. -/
theorem claim10_checksum_reference :
    (∀ t, calculate_checksum t = sha256hex (walkBytes t)) ∧
    (∀ (f : String → String) (t : FsEntry),
      (∀ a b, f a ≤ f b ↔ a ≤ b) →
      calculate_checksum (renameTree f t) = calculate_checksum t) ∧
    (∀ t, noReadable t = true →
      calculate_checksum t =
        "e3b0c44298fc1c149afbf4c8996fb92427ae41e4649b934ca495991b7852b855") :=
  ⟨fun _ => rfl,
   fun f t hf => congrArg sha256hex (walkBytes_rename f hf t),
   fun t ht => by
     unfold calculate_checksum
     rw [walkBytes_eq_nil_of_noReadable ht]
     exact sha256hex_nil⟩

/-- Witness for C10: renaming through the identity map keeps the digest of
a concrete tree, and the empty directory hashes to the digest of the empty
byte string. -/
theorem claim10_witness :
    calculate_checksum (renameTree (fun s => s) treeSwapA) =
      calculate_checksum treeSwapA ∧
    calculate_checksum (.dir []) =
      "e3b0c44298fc1c149afbf4c8996fb92427ae41e4649b934ca495991b7852b855" :=
  ⟨claim10_checksum_reference.2.1 (fun s => s) treeSwapA
      (fun _ _ => Iff.rfl),
   claim10_checksum_reference.2.2 (.dir [])
      (by rw [noReadable_dir]; exact noReadableList_nil)⟩
